import Mathlib

/-!
Verification development for the digest/notifier scripts.

Python strings are modelled as `List Char`, machine integers and epoch
timestamps as `Int`/`Nat`, floats as `ℚ`, and fallible calls as
`Option`/`Except` over explicit outcome values.  Each definition below is a
shallow embedding of the correspondingly named function of `digest.py` or
`notifier.py`.
-/

/-- Character-list view of a Python `str`. -/
abbrev Str := List Char

/-- Embedding of Python `str.strip()` (whitespace trim on both ends). -/
def trimStr (s : Str) : Str :=
  ((s.dropWhile Char.isWhitespace).reverse.dropWhile Char.isWhitespace).reverse

/-- Embedding of `str.lower()`.  `Char.toLower` only lowers ASCII letters; the
Cyrillic keywords of `digest.py` are already lowercase, so the keyword test
below is unaffected. -/
def toLowerStr (s : Str) : Str := s.map Char.toLower

/-- Embedding of `str.upper()` (used for country codes, which are ASCII). -/
def toUpperStr (s : Str) : Str := s.map Char.toUpper

/-- Embedding of the Python substring test `needle in hay`. -/
def strContains : Str → Str → Bool
  | [], needle => needle.isEmpty
  | c :: t, needle => needle.isPrefixOf (c :: t) || strContains t needle

/-- Index of the last `'\n'` of a character list, if any: the semantics of
`buf.rfind("\n", 0, n)` applied to `buf.take n` (digest.py line 27). -/
def rfindNL : Str → Option Nat
  | [] => none
  | c :: t =>
    match rfindNL t with
    | some i => some (i + 1)
    | none => if c = '\n' then some 0 else none

/-- Cut position chosen by one iteration of `split_chunks` (digest.py lines
27-29): the last newline strictly inside the first `maxLen` characters, or a
hard cut at `maxLen` when that window has no newline. -/
def chunkCut (buf : Str) (maxLen : Nat) : Nat :=
  match rfindNL (buf.take maxLen) with
  | some i => i
  | none => maxLen

/-- Fuel-indexed embedding of the `while len(buf) > max_len` loop of
`split_chunks` (digest.py lines 23-34).  `none` means the loop did not finish
within `fuel` iterations; the Python loop can genuinely diverge when
`max_len = 0`, which the fuel makes observable. -/
def split_chunksGo : Nat → Str → Nat → Option (List Str)
  | 0, _, _ => none
  | fuel + 1, buf, maxLen =>
    if maxLen < buf.length then
      match split_chunksGo fuel ((buf.drop (chunkCut buf maxLen)).dropWhile (· == '\n')) maxLen with
      | some parts => some (buf.take (chunkCut buf maxLen) :: parts)
      | none => none
    else if 0 < buf.length then some [buf] else some []

/-- Embedding of `split_chunks(text, max_len)`.  `text.length + 1` units of
fuel always suffice when `max_len ≥ 1` (proved below). -/
def split_chunks (text : Str) (maxLen : Nat) : Option (List Str) :=
  split_chunksGo (text.length + 1) text maxLen

example : split_chunks ("ab\ncd\nef".toList) 5 = some ["ab".toList, "cd\nef".toList] := by decide

example : split_chunks ("a\nbb".toList) 2 = some ["a".toList, "bb".toList] := by decide

example : split_chunks ("aaaa\nbb".toList) 4 = some ["aaaa".toList, "bb".toList] := by decide

theorem dropWhile_length_le {α : Type} (p : α → Bool) (l : List α) :
    (l.dropWhile p).length ≤ l.length := by
  induction l with
  | nil => simp
  | cons c t ih =>
    rw [List.dropWhile_cons]
    split
    · exact Nat.le_trans ih (Nat.le_succ _)
    · exact Nat.le_refl _

theorem rfindNL_eq_none_iff (l : Str) : rfindNL l = none ↔ '\n' ∉ l := by
  induction l with
  | nil => simp [rfindNL]
  | cons c t ih =>
    simp only [rfindNL]
    cases h : rfindNL t with
    | some i =>
      have hmem : '\n' ∈ t := by
        by_contra hc
        rw [ih.mpr hc] at h
        cases h
      simp [List.mem_cons, hmem]
    | none =>
      by_cases hc : c = '\n'
      · simp [hc]
      · simp only [if_neg hc]
        simp only [List.mem_cons, true_iff]
        intro hx
        rcases hx with hx | hx
        · exact hc hx.symm
        · exact (ih.mp h) hx

theorem rfindNL_spec (l : Str) (i : Nat) (h : rfindNL l = some i) :
    l[i]? = some '\n' ∧ ∀ j, i < j → l[j]? ≠ some '\n' := by
  induction l generalizing i with
  | nil => simp [rfindNL] at h
  | cons c t ih =>
    simp only [rfindNL] at h
    cases ht : rfindNL t with
    | some k =>
      rw [ht] at h
      injection h with h
      subst h
      have hk := ih k ht
      refine ⟨by simpa using hk.1, ?_⟩
      intro j hj
      match j, hj with
      | j + 1, hj =>
        simpa using hk.2 j (Nat.lt_of_succ_lt_succ hj)
    | none =>
      rw [ht] at h
      by_cases hc : c = '\n'
      · rw [if_pos hc] at h
        injection h with h
        subst h
        refine ⟨by simp [hc], ?_⟩
        intro j hj
        match j, hj with
        | j + 1, _ =>
          have hnot : '\n' ∉ t := (rfindNL_eq_none_iff t).mp ht
          simp only [List.getElem?_cons_succ]
          intro hbad
          exact hnot (List.getElem?_mem hbad)
      · rw [if_neg hc] at h
        cases h

theorem chunkCut_le (buf : Str) (maxLen : Nat) : chunkCut buf maxLen ≤ maxLen := by
  unfold chunkCut
  cases h : rfindNL (buf.take maxLen) with
  | none => exact Nat.le_refl _
  | some i =>
    obtain ⟨hlt, -⟩ := List.getElem?_eq_some.mp (rfindNL_spec _ i h).1
    exact Nat.le_of_lt (Nat.lt_of_lt_of_le hlt (List.length_take_le _ _))

theorem chunkCut_newline (buf : Str) (maxLen : Nat) (h : '\n' ∈ buf.take maxLen) :
    buf[chunkCut buf maxLen]? = some '\n' ∧
      ∀ j, chunkCut buf maxLen < j → j < maxLen → buf[j]? ≠ some '\n' := by
  cases hr : rfindNL (buf.take maxLen) with
  | none => exact absurd h ((rfindNL_eq_none_iff _).mp hr)
  | some i =>
    have hspec := rfindNL_spec _ i hr
    obtain ⟨hlt, -⟩ := List.getElem?_eq_some.mp hspec.1
    have hiMax : i < maxLen := Nat.lt_of_lt_of_le hlt (List.length_take_le _ _)
    have hcut : chunkCut buf maxLen = i := by unfold chunkCut; rw [hr]
    rw [hcut]
    constructor
    · rw [← List.getElem?_take_of_lt (l := buf) hiMax]
      exact hspec.1
    · intro j hij hjmax hbad
      have hjt : (buf.take maxLen)[j]? = some '\n' := by
        rw [List.getElem?_take_of_lt (l := buf) hjmax]
        exact hbad
      exact hspec.2 j hij hjt

theorem chunkCut_hard (buf : Str) (maxLen : Nat) (h : '\n' ∉ buf.take maxLen) :
    chunkCut buf maxLen = maxLen := by
  unfold chunkCut
  rw [(rfindNL_eq_none_iff _).mpr h]

theorem chunk_step_lt (buf : Str) (maxLen : Nat) (h1 : 1 ≤ maxLen) (h2 : maxLen < buf.length) :
    ((buf.drop (chunkCut buf maxLen)).dropWhile (· == '\n')).length < buf.length := by
  have hpos : 0 < buf.length := by omega
  cases hr : rfindNL (buf.take maxLen) with
  | none =>
    have hcut : chunkCut buf maxLen = maxLen := by unfold chunkCut; rw [hr]
    rw [hcut]
    calc ((buf.drop maxLen).dropWhile (· == '\n')).length
        ≤ (buf.drop maxLen).length := dropWhile_length_le _ _
      _ = buf.length - maxLen := List.length_drop _ _
      _ < buf.length := by omega
  | some i =>
    have hcut : chunkCut buf maxLen = i := by unfold chunkCut; rw [hr]
    have hspec := rfindNL_spec _ i hr
    obtain ⟨hlt, -⟩ := List.getElem?_eq_some.mp hspec.1
    rw [hcut]
    by_cases hi : i = 0
    · subst hi
      have h0 : buf[0]? = some '\n' := by
        have := hspec.1
        rwa [List.getElem?_take_of_lt (l := buf) (by omega)] at this
      cases buf with
      | nil => simp at h0
      | cons c t =>
        have hc : c = '\n' := by simpa using h0
        rw [List.drop_zero, List.dropWhile_cons]
        have hbeq : (c == '\n') = true := by rw [hc]; rfl
        rw [hbeq]
        simp only [if_pos rfl]
        calc (t.dropWhile (· == '\n')).length
            ≤ t.length := dropWhile_length_le _ _
          _ < (c :: t).length := by simp
    · have hib : i < buf.length :=
        Nat.lt_of_lt_of_le hlt (List.length_take_le' _ _)
      calc ((buf.drop i).dropWhile (· == '\n')).length
          ≤ (buf.drop i).length := dropWhile_length_le _ _
        _ = buf.length - i := List.length_drop _ _
        _ < buf.length := by omega

theorem split_chunksGo_succ_loop (fuel : Nat) (buf : Str) (maxLen : Nat)
    (hb : maxLen < buf.length) :
    split_chunksGo (fuel + 1) buf maxLen =
      Option.map (fun parts => buf.take (chunkCut buf maxLen) :: parts)
        (split_chunksGo fuel ((buf.drop (chunkCut buf maxLen)).dropWhile (· == '\n')) maxLen) := by
  simp only [split_chunksGo, if_pos hb]
  cases split_chunksGo fuel ((buf.drop (chunkCut buf maxLen)).dropWhile (· == '\n')) maxLen with
  | none => rfl
  | some parts => rfl

theorem split_chunksGo_isSome (maxLen : Nat) (h1 : 1 ≤ maxLen) :
    ∀ fuel buf, buf.length < fuel → (split_chunksGo fuel buf maxLen).isSome = true := by
  intro fuel
  induction fuel with
  | zero => intro buf h; exact absurd h (Nat.not_lt_zero _)
  | succ f ih =>
    intro buf hlen
    by_cases hb : maxLen < buf.length
    · have hdec := chunk_step_lt buf maxLen h1 hb
      have hrec := ih ((buf.drop (chunkCut buf maxLen)).dropWhile (· == '\n')) (by omega)
      rw [split_chunksGo_succ_loop f buf maxLen hb]
      cases hr : split_chunksGo f ((buf.drop (chunkCut buf maxLen)).dropWhile (· == '\n')) maxLen with
      | none => rw [hr] at hrec; exact absurd hrec (by simp)
      | some parts => rfl
    · simp only [split_chunksGo, if_neg hb]
      split <;> rfl

theorem split_chunksGo_length (maxLen : Nat) :
    ∀ fuel buf parts, split_chunksGo fuel buf maxLen = some parts →
      ∀ p ∈ parts, p.length ≤ maxLen := by
  intro fuel
  induction fuel with
  | zero => intro buf parts h; cases h
  | succ f ih =>
    intro buf parts h
    by_cases hb : maxLen < buf.length
    · rw [split_chunksGo_succ_loop f buf maxLen hb] at h
      cases hr : split_chunksGo f ((buf.drop (chunkCut buf maxLen)).dropWhile (· == '\n')) maxLen with
      | none => rw [hr] at h; cases h
      | some rest =>
        rw [hr] at h
        injection h with h
        subst h
        intro p hp
        rcases List.mem_cons.mp hp with rfl | hp
        · calc (buf.take (chunkCut buf maxLen)).length
              ≤ chunkCut buf maxLen := List.length_take_le _ _
            _ ≤ maxLen := chunkCut_le _ _
        · exact ih _ rest hr p hp
    · simp only [split_chunksGo, if_neg hb] at h
      by_cases h0 : 0 < buf.length
      · rw [if_pos h0] at h
        injection h with h
        subst h
        intro p hp
        rcases List.mem_cons.mp hp with rfl | hp
        · omega
        · cases hp
      · rw [if_neg h0] at h
        injection h with h
        subst h
        intro p hp
        cases hp

theorem split_chunksGo_rejoin (maxLen : Nat) :
    ∀ fuel buf parts, split_chunksGo fuel buf maxLen = some parts →
      ∃ seps : List Str, seps.length = parts.length ∧
        (∀ s ∈ seps, ∀ c ∈ s, c = '\n') ∧
        ((parts.zip seps).map (fun ps => ps.1 ++ ps.2)).flatten = buf := by
  intro fuel
  induction fuel with
  | zero => intro buf parts h; cases h
  | succ f ih =>
    intro buf parts h
    by_cases hb : maxLen < buf.length
    · rw [split_chunksGo_succ_loop f buf maxLen hb] at h
      cases hr : split_chunksGo f ((buf.drop (chunkCut buf maxLen)).dropWhile (· == '\n')) maxLen with
      | none => rw [hr] at h; cases h
      | some rest =>
        rw [hr] at h
        injection h with h
        subst h
        obtain ⟨seps, hlen, hnl, hjoin⟩ := ih _ rest hr
        refine ⟨(buf.drop (chunkCut buf maxLen)).takeWhile (· == '\n') :: seps, by simp [hlen], ?_, ?_⟩
        · intro s hs c hc
          rcases List.mem_cons.mp hs with rfl | hs
          · exact eq_of_beq (List.mem_takeWhile_imp (p := (· == '\n')) hc)
          · exact hnl s hs c hc
        · simp only [List.zip_cons_cons, List.map_cons, List.flatten_cons]
          rw [hjoin, List.append_assoc, List.takeWhile_append_dropWhile, List.take_append_drop]
    · simp only [split_chunksGo, if_neg hb] at h
      by_cases h0 : 0 < buf.length
      · rw [if_pos h0] at h
        injection h with h
        subst h
        exact ⟨[[]], rfl, by simp, by simp⟩
      · rw [if_neg h0] at h
        injection h with h
        subst h
        have hnil : buf = [] := by
          cases buf with
          | nil => rfl
          | cons c t => simp at h0
        exact ⟨[], rfl, by simp, by simp [hnil]⟩

theorem split_chunksGo_zero_diverges (c : Char) (t : Str) (hc : c ≠ '\n') :
    ∀ fuel, split_chunksGo fuel (c :: t) 0 = none := by
  intro fuel
  induction fuel with
  | zero => rfl
  | succ f ih =>
    have hb : 0 < (c :: t).length := by simp
    rw [split_chunksGo_succ_loop f (c :: t) 0 hb]
    have hcut : chunkCut (c :: t) 0 = 0 := by
      unfold chunkCut
      simp [rfindNL]
    rw [hcut, List.drop_zero, List.dropWhile_cons]
    have hbeq : (c == '\n') = false := by
      simp [hc]
    rw [hbeq]
    simp only [Bool.false_eq_true, if_false]
    rw [ih]
    rfl

/-- Claim C4: for every message text and limit (at least 1, see C10), the
chunker cuts at the last newline inside the length budget whenever one exists
there, falls back to a hard cut at the limit otherwise, and every produced
chunk has length at most the limit. -/
theorem split_chunks_cut_spec (text : Str) (maxLen : Nat) (h1 : 1 ≤ maxLen) :
    (∃ parts, split_chunks text maxLen = some parts ∧ ∀ p ∈ parts, p.length ≤ maxLen) ∧
    (∀ buf : Str, maxLen < buf.length →
      (∀ fuel : Nat,
        split_chunksGo (fuel + 1) buf maxLen =
          Option.map (fun parts => buf.take (chunkCut buf maxLen) :: parts)
            (split_chunksGo fuel ((buf.drop (chunkCut buf maxLen)).dropWhile (· == '\n')) maxLen)) ∧
      ('\n' ∈ buf.take maxLen →
        buf[chunkCut buf maxLen]? = some '\n' ∧
        ∀ j, chunkCut buf maxLen < j → j < maxLen → buf[j]? ≠ some '\n') ∧
      ('\n' ∉ buf.take maxLen → chunkCut buf maxLen = maxLen)) := by
  constructor
  · have hs := split_chunksGo_isSome maxLen h1 (text.length + 1) text (Nat.lt_succ_self _)
    cases hp : split_chunks text maxLen with
    | none => rw [split_chunks] at hp; rw [hp] at hs; cases hs
    | some parts =>
      refine ⟨parts, rfl, ?_⟩
      exact split_chunksGo_length maxLen (text.length + 1) text parts hp
  · intro buf hb
    exact ⟨fun fuel => split_chunksGo_succ_loop fuel buf maxLen hb,
      chunkCut_newline buf maxLen, chunkCut_hard buf maxLen⟩

/-- Witness for C4 at a concrete message and limit. -/
theorem split_chunks_cut_spec_w :
    (∃ parts, split_chunks ("ab\ncd\nef".toList) 5 = some parts ∧ ∀ p ∈ parts, p.length ≤ 5) ∧
    split_chunks ("ab\ncd\nef".toList) 5 = some ["ab".toList, "cd\nef".toList] :=
  ⟨(split_chunks_cut_spec ("ab\ncd\nef".toList) 5 (by decide)).1, by decide⟩

/-- Claim C5: concatenating the chunks, with the newline runs removed at each
cut restored between them, reproduces the original message exactly.  The cited
`split_chunks` inserts no "(i/total)" markers itself, so stripping markers is
vacuous at this layer. -/
theorem split_chunks_rejoin (text : Str) (maxLen : Nat) (h1 : 1 ≤ maxLen) :
    ∃ parts seps, split_chunks text maxLen = some parts ∧
      seps.length = parts.length ∧
      (∀ s ∈ seps, ∀ c ∈ s, c = '\n') ∧
      ((parts.zip seps).map (fun ps => ps.1 ++ ps.2)).flatten = text := by
  have hs := split_chunksGo_isSome maxLen h1 (text.length + 1) text (Nat.lt_succ_self _)
  cases hp : split_chunks text maxLen with
  | none => rw [split_chunks] at hp; rw [hp] at hs; cases hs
  | some parts =>
    obtain ⟨seps, hlen, hnl, hjoin⟩ := split_chunksGo_rejoin maxLen (text.length + 1) text parts hp
    exact ⟨parts, seps, rfl, hlen, hnl, hjoin⟩

/-- Witness for C5 at a concrete message and limit. -/
theorem split_chunks_rejoin_w :
    (∃ parts seps, split_chunks ("a\nbb".toList) 2 = some parts ∧
      seps.length = parts.length ∧
      (∀ s ∈ seps, ∀ c ∈ s, c = '\n') ∧
      ((parts.zip seps).map (fun ps => ps.1 ++ ps.2)).flatten = "a\nbb".toList) ∧
    split_chunks ("a\nbb".toList) 2 = some ["a".toList, "bb".toList] :=
  ⟨split_chunks_rejoin ("a\nbb".toList) 2 (by decide), by decide⟩

/-- Claim C10: with a limit of at least 1 the chunking loop terminates (each
iteration strictly shortens the buffer), while with a limit of 0 and a
non-empty text not starting with a newline it runs forever: no amount of fuel
makes the loop finish. -/
theorem split_chunks_terminates :
    (∀ (text : Str) (maxLen : Nat), 1 ≤ maxLen → (split_chunks text maxLen).isSome = true) ∧
    (∀ (c : Char) (t : Str), c ≠ '\n' → ∀ fuel, split_chunksGo fuel (c :: t) 0 = none) := by
  constructor
  · intro text maxLen h1
    exact split_chunksGo_isSome maxLen h1 (text.length + 1) text (Nat.lt_succ_self _)
  · exact split_chunksGo_zero_diverges

/-- Witness for C10 at concrete inputs on both sides. -/
theorem split_chunks_terminates_w :
    (split_chunks ("xy".toList) 1).isSome = true ∧
    split_chunksGo 9 ('a' :: "bc".toList) 0 = none :=
  ⟨split_chunks_terminates.1 ("xy".toList) 1 (by decide),
    split_chunks_terminates.2 'a' ("bc".toList) (by decide) 9⟩

/-- Embedding of `within_day(dt, day_start, day_end)` (digest.py lines 49-50):
`day_start <= dt < day_end` on instants, modelled as epoch values.  Converting
an aware datetime with `astimezone` does not change the instant it denotes, so
comparisons of localized datetimes are comparisons of these epoch values. -/
def within_day (dt day_start day_end : Int) : Bool :=
  decide (day_start ≤ dt) && decide (dt < day_end)

/-- The if/elif day classification used by the section builders (digest.py
lines 107-110, 130-133): `some true` = today bucket, `some false` = tomorrow
bucket, `none` = dropped. -/
def classify_day (lt t0 t1 t2 : Int) : Option Bool :=
  if within_day lt t0 t1 then some true
  else if within_day lt t1 t2 then some false
  else none

/-- Bucketing loop of the section builders: appends each item to the today or
tomorrow list (or drops it) in input order. -/
def bucket_items {α : Type} (key : α → Int) (t0 t1 t2 : Int) (items : List α) :
    List α × List α :=
  items.foldl (fun acc e =>
    match classify_day (key e) t0 t1 t2 with
    | some true => (acc.1 ++ [e], acc.2)
    | some false => (acc.1, acc.2 ++ [e])
    | none => acc) ([], [])

/-- Normalized feed item (digest.py line 81, with the `source` label the
section builders add). -/
structure FeedItem where
  title : Str
  link : Str
  time : Int
  summary : Str
  source : Str
deriving DecidableEq

/-- Stable insertion keeping larger keys first: the element is placed after
every earlier element whose key is not smaller, matching the stable
`sorted(..., reverse=True)` of Python. -/
def insertDescBy {α : Type} (key : α → Int) (x : α) : List α → List α
  | [] => [x]
  | y :: t => if key y < key x then x :: y :: t else y :: insertDescBy key x t

/-- Stable descending sort by key: semantics of `sorted(l, key=..., reverse=True)`. -/
def sortDescBy {α : Type} (key : α → Int) : List α → List α
  | [] => []
  | x :: t => insertDescBy key x (sortDescBy key t)

/-- Stable insertion keeping smaller keys first, matching Python's stable
`sorted(...)`. -/
def insertAscBy {α : Type} (key : α → Int) (x : α) : List α → List α
  | [] => [x]
  | y :: t => if key x < key y then x :: y :: t else y :: insertAscBy key x t

/-- Stable ascending sort by key: semantics of `sorted(l, key=...)`. -/
def sortAscBy {α : Type} (key : α → Int) : List α → List α
  | [] => []
  | x :: t => insertAscBy key x (sortAscBy key t)

/-- The listing-announcement keyword list of `section_listings`
(digest.py line 97). -/
def keywordList : List Str :=
  ["will list".toList, "lists".toList, "listing".toList, "launches".toList,
    "new listing".toList, "листинг".toList, "запуст".toList, "список".toList]

/-- Keyword filter of `section_listings`: case-insensitive substring match of
any keyword in the title. -/
def keyword_hit (title : Str) : Bool :=
  keywordList.any (fun k => strContains (toLowerStr title) k)

/-- Today/tomorrow output of the listings and status sections. -/
structure SectionOut where
  today : List FeedItem
  tomorrow : List FeedItem
deriving DecidableEq

/-- Embedding of `section_listings` (digest.py lines 88-116).  The fetched
raw items are passed per source; the three boundaries `t0 < t1 < t2`
correspond to `today_start`, `today_end` and `tomorrow_end` computed from the
clock, which are external inputs here.  `N = 5`, and each bucket is sorted by
time with `reverse=True` (descending) before being capped. -/
def section_listings (enabled : Bool) (fetched : List (Str × List FeedItem))
    (t0 t1 t2 : Int) : SectionOut :=
  if enabled = false then ⟨[], []⟩
  else
    let items := fetched.flatMap (fun p =>
      (p.2.filter (fun e => keyword_hit e.title)).map (fun e => { e with source := p.1 }))
    let tb := bucket_items (fun e => e.time) t0 t1 t2 items
    ⟨(sortDescBy (fun e => e.time) tb.1).take 5,
      (sortDescBy (fun e => e.time) tb.2).take 5⟩

/-- Embedding of `section_status` (digest.py lines 118-139): same shape as
listings but without an enabled flag or keyword filter. -/
def section_status (fetched : List (Str × List FeedItem)) (t0 t1 t2 : Int) : SectionOut :=
  let items := fetched.flatMap (fun p => p.2.map (fun e => { e with source := p.1 }))
  let tb := bucket_items (fun e => e.time) t0 t1 t2 items
  ⟨(sortDescBy (fun e => e.time) tb.1).take 5,
    (sortDescBy (fun e => e.time) tb.2).take 5⟩

/-- Raw ForexFactory calendar event as consumed by
`section_macro_forexfactory` (digest.py lines 172-210).  `timestamp` is the
epoch value when the field is present; `date` is `none` when absent, `some
none` when present but unparseable (the per-event `except` then skips the
event), and `some (some d)` when it parses to instant `d`. -/
structure MacroEvent where
  timestamp : Option Int
  date : Option (Option Int)
  title : Str
  country : Str
  impact : Str
  actual : Option Str
  forecast : Option Str
  previous : Option Str
deriving DecidableEq

/-- Fallback instant from the `date` field (digest.py lines 177-182). -/
def date_time (e : MacroEvent) : Option Int :=
  match e.date with
  | some (some d) => some d
  | _ => none

/-- Event instant resolution (digest.py lines 175-184): a present, non-zero
(`if not ts` is a falsy test) `timestamp` wins, otherwise the parsed `date`;
`none` means the event is skipped. -/
def event_time (e : MacroEvent) : Option Int :=
  match e.timestamp with
  | some t => if t = 0 then date_time e else some t
  | none => date_time e

/-- Region to country-code mapping of the macro section (digest.py lines
156-163). -/
def region_countries_for (r : Str) : List Str :=
  if r = "US".toList then ["USD".toList]
  else if r = "UK".toList then ["GBP".toList]
  else if r = "EU".toList then
    ["EUR".toList, "DEU".toList, "DE".toList, "FRA".toList, "ITA".toList, "ESP".toList]
  else []

/-- Impact filter `impact_pass` (digest.py lines 165-169). -/
def impact_pass (high_only : Bool) (impact : Str) : Bool :=
  let imp := toLowerStr impact
  if high_only then strContains imp ("high".toList)
  else strContains imp ("high".toList) || strContains imp ("medium".toList)

/-- Python truthiness of an optional string: `None` and `""` are falsy. -/
def truthyOpt (o : Option Str) : Option Str :=
  match o with
  | some s => if s.isEmpty then none else some s
  | none => none

/-- The actual/forecast/previous detail fragments (digest.py lines 194-200). -/
def detail_items (e : MacroEvent) : List Str :=
  (match truthyOpt e.actual with
    | some a => [("факт: ".toList) ++ a]
    | none => []) ++
  (match truthyOpt e.forecast with
    | some f => [("прогноз: ".toList) ++ f]
    | none => []) ++
  (match truthyOpt e.previous with
    | some p => [("пред.: ".toList) ++ p]
    | none => [])

/-- Embedding of `"; ".join(...)`-style joining. -/
def joinSep (sep : Str) : List Str → Str
  | [] => []
  | [s] => s
  | s :: t => s ++ sep ++ joinSep sep t

/-- Rendered line title of a kept macro event (digest.py lines 201-204). -/
def macro_line_title (e : MacroEvent) : Str :=
  let base := toUpperStr e.country ++ (" — ".toList) ++ trimStr e.title
  let ds := detail_items e
  if ds.isEmpty then base
  else base ++ (" (".toList) ++ joinSep ("; ".toList) ds ++ (")".toList)

/-- One kept line of the macro section: an instant plus its rendered title. -/
structure MacroLine where
  time : Int
  title : Str
deriving DecidableEq

/-- Output of the macro section. -/
structure MacroSection where
  today : List MacroLine
  tomorrow : List MacroLine
  note : Str
deriving DecidableEq

/-- Embedding of `section_macro_forexfactory` (digest.py lines 141-215).  The
clock-derived values `now_local`, `end_local` (= now plus the lookahead
horizon), `today_start` and `today_end` are external inputs.  Events are kept
when their instant lies in the closed window `[now_local, end_local]`, passes
the region and impact filters, and are then bucketed: today via `within_day`,
everything else into tomorrow (no upper bound).  Both buckets are sorted
ascending by time, and — unlike listings/status — no `[:N]` cap is applied. -/
def section_macro_forexfactory (enabled : Bool) (data : List MacroEvent)
    (regions : List Str) (high_only : Bool)
    (now_local end_local today_start today_end : Int) : MacroSection :=
  if enabled = false then ⟨[], [], "Макро выключено.".toList⟩
  else
    let allowed := regions.flatMap region_countries_for
    let tb := data.foldl (fun acc ev =>
      match event_time ev with
      | none => acc
      | some et =>
        if ¬(now_local ≤ et ∧ et ≤ end_local) then acc
        else if allowed ≠ [] ∧ toUpperStr ev.country ∉ allowed then acc
        else if impact_pass high_only ev.impact = false then acc
        else
          let line : MacroLine := ⟨et, macro_line_title ev⟩
          if within_day et today_start today_end then (acc.1 ++ [line], acc.2)
          else (acc.1, acc.2 ++ [line])) (([], []) : List MacroLine × List MacroLine)
    let today := sortAscBy (fun l => l.time) tb.1
    let tomorrow := sortAscBy (fun l => l.time) tb.2
    ⟨today, tomorrow,
      if today.isEmpty && tomorrow.isEmpty then
        "Нет макро-событий по фильтрам в горизонте 48ч.".toList
      else []⟩

theorem mem_insertDescBy {α : Type} (key : α → Int) (x a : α) (l : List α) :
    a ∈ insertDescBy key x l ↔ a = x ∨ a ∈ l := by
  induction l with
  | nil => simp [insertDescBy]
  | cons y t ih =>
    simp only [insertDescBy]
    by_cases h : key y < key x
    · rw [if_pos h]
      simp [List.mem_cons]
    · rw [if_neg h]
      simp [List.mem_cons, ih]
      tauto

theorem pairwise_insertDescBy {α : Type} (key : α → Int) (x : α) (l : List α)
    (h : l.Pairwise (fun a b => key b ≤ key a)) :
    (insertDescBy key x l).Pairwise (fun a b => key b ≤ key a) := by
  induction l with
  | nil => simp [insertDescBy]
  | cons y t ih =>
    rw [List.pairwise_cons] at h
    obtain ⟨hy, ht⟩ := h
    simp only [insertDescBy]
    by_cases hlt : key y < key x
    · rw [if_pos hlt, List.pairwise_cons]
      constructor
      · intro b hb
        rcases List.mem_cons.mp hb with rfl | hb
        · exact le_of_lt hlt
        · exact le_trans (hy b hb) (le_of_lt hlt)
      · rw [List.pairwise_cons]
        exact ⟨hy, ht⟩
    · rw [if_neg hlt, List.pairwise_cons]
      constructor
      · intro b hb
        rcases (mem_insertDescBy key x b t).mp hb with rfl | hb
        · exact le_of_not_lt hlt
        · exact hy b hb
      · exact ih ht

theorem pairwise_sortDescBy {α : Type} (key : α → Int) (l : List α) :
    (sortDescBy key l).Pairwise (fun a b => key b ≤ key a) := by
  induction l with
  | nil => simp [sortDescBy]
  | cons x t ih =>
    simp only [sortDescBy]
    exact pairwise_insertDescBy key x _ ih

theorem mem_insertAscBy {α : Type} (key : α → Int) (x a : α) (l : List α) :
    a ∈ insertAscBy key x l ↔ a = x ∨ a ∈ l := by
  induction l with
  | nil => simp [insertAscBy]
  | cons y t ih =>
    simp only [insertAscBy]
    by_cases h : key x < key y
    · rw [if_pos h]
      simp [List.mem_cons]
    · rw [if_neg h]
      simp [List.mem_cons, ih]
      tauto

theorem pairwise_insertAscBy {α : Type} (key : α → Int) (x : α) (l : List α)
    (h : l.Pairwise (fun a b => key a ≤ key b)) :
    (insertAscBy key x l).Pairwise (fun a b => key a ≤ key b) := by
  induction l with
  | nil => simp [insertAscBy]
  | cons y t ih =>
    rw [List.pairwise_cons] at h
    obtain ⟨hy, ht⟩ := h
    simp only [insertAscBy]
    by_cases hlt : key x < key y
    · rw [if_pos hlt, List.pairwise_cons]
      constructor
      · intro b hb
        rcases List.mem_cons.mp hb with rfl | hb
        · exact le_of_lt hlt
        · exact le_trans (le_of_lt hlt) (hy b hb)
      · rw [List.pairwise_cons]
        exact ⟨hy, ht⟩
    · rw [if_neg hlt, List.pairwise_cons]
      constructor
      · intro b hb
        rcases (mem_insertAscBy key x b t).mp hb with rfl | hb
        · exact le_of_not_lt hlt
        · exact hy b hb
      · exact ih ht

theorem pairwise_sortAscBy {α : Type} (key : α → Int) (l : List α) :
    (sortAscBy key l).Pairwise (fun a b => key a ≤ key b) := by
  induction l with
  | nil => simp [sortAscBy]
  | cons x t ih =>
    simp only [sortAscBy]
    exact pairwise_insertAscBy key x _ ih

/-- Concrete macro event used for the cap counterexample: a plain high-impact
event at instant `t`. -/
def macroEvAt (t : Int) : MacroEvent :=
  ⟨some t, none, [], [], "high".toList, none, none, none⟩

/-- Counterexample to claim C1 as stated: the macro section builder applies no
cap, so six qualifying events inside today's window all appear in the today
list, which then has 6 > 5 entries. -/
theorem macro_section_uncapped_cex :
    ¬ ((section_macro_forexfactory true
        [macroEvAt 1, macroEvAt 2, macroEvAt 3, macroEvAt 4, macroEvAt 5, macroEvAt 6]
        [] false 0 200000 0 86400).today.length ≤ 5) := by decide

/-- Claim C1 (amended): the listings and status section builders cap the
today and tomorrow lists at N = 5 regardless of how many raw items were
fetched; the macro section applies no cap and its lists can exceed 5. -/
theorem sections_cap_behavior :
    (∀ (enabled : Bool) (fetched : List (Str × List FeedItem)) (t0 t1 t2 : Int),
      (section_listings enabled fetched t0 t1 t2).today.length ≤ 5 ∧
      (section_listings enabled fetched t0 t1 t2).tomorrow.length ≤ 5) ∧
    (∀ (fetched : List (Str × List FeedItem)) (t0 t1 t2 : Int),
      (section_status fetched t0 t1 t2).today.length ≤ 5 ∧
      (section_status fetched t0 t1 t2).tomorrow.length ≤ 5) ∧
    (∃ (data : List MacroEvent) (nl el ts te : Int),
      5 < (section_macro_forexfactory true data [] false nl el ts te).today.length) := by
  refine ⟨?_, ?_, ?_⟩
  · intro enabled fetched t0 t1 t2
    by_cases h : enabled = false
    · simp [section_listings, h]
    · simp only [section_listings, if_neg h]
      exact ⟨List.length_take_le _ _, List.length_take_le _ _⟩
  · intro fetched t0 t1 t2
    exact ⟨List.length_take_le _ _, List.length_take_le _ _⟩
  · refine ⟨[macroEvAt 11, macroEvAt 12, macroEvAt 13, macroEvAt 14, macroEvAt 15, macroEvAt 16],
      0, 200000, 0, 86400, ?_⟩
    decide

/-- Concrete feed item used for the sort-order counterexample. -/
def listItemAt (t : Int) (ti : Str) : FeedItem :=
  ⟨ti, [], t, [], []⟩

/-- Counterexample to claim C2 as stated: two today items with times 1 and 2
come out of the listings builder as [2, 1] (`sorted(..., reverse=True)`), so
the today list is not ascending. -/
theorem listings_not_ascending_cex :
    ¬ ((section_listings true
        [("src".toList, [listItemAt 1 ("will list a".toList), listItemAt 2 ("will list b".toList)])]
        0 10 20).today.Pairwise (fun a b => a.time ≤ b.time)) := by decide

/-- Claim C2 (amended): the listings and status builders sort each bucket in
descending time order (newest first, `reverse=True`), while the macro builder
sorts its buckets ascending. -/
theorem sections_sort_order :
    (∀ (enabled : Bool) (fetched : List (Str × List FeedItem)) (t0 t1 t2 : Int),
      (section_listings enabled fetched t0 t1 t2).today.Pairwise (fun a b => b.time ≤ a.time) ∧
      (section_listings enabled fetched t0 t1 t2).tomorrow.Pairwise (fun a b => b.time ≤ a.time)) ∧
    (∀ (fetched : List (Str × List FeedItem)) (t0 t1 t2 : Int),
      (section_status fetched t0 t1 t2).today.Pairwise (fun a b => b.time ≤ a.time) ∧
      (section_status fetched t0 t1 t2).tomorrow.Pairwise (fun a b => b.time ≤ a.time)) ∧
    (∀ (enabled : Bool) (data : List MacroEvent) (regions : List Str) (high_only : Bool)
        (nl el ts te : Int),
      (section_macro_forexfactory enabled data regions high_only nl el ts te).today.Pairwise
        (fun a b => a.time ≤ b.time) ∧
      (section_macro_forexfactory enabled data regions high_only nl el ts te).tomorrow.Pairwise
        (fun a b => a.time ≤ b.time)) := by
  refine ⟨?_, ?_, ?_⟩
  · intro enabled fetched t0 t1 t2
    by_cases h : enabled = false
    · simp [section_listings, h]
    · simp only [section_listings, if_neg h]
      exact ⟨List.Pairwise.sublist (List.take_sublist _ _) (pairwise_sortDescBy _ _),
        List.Pairwise.sublist (List.take_sublist _ _) (pairwise_sortDescBy _ _)⟩
  · intro fetched t0 t1 t2
    exact ⟨List.Pairwise.sublist (List.take_sublist _ _) (pairwise_sortDescBy _ _),
      List.Pairwise.sublist (List.take_sublist _ _) (pairwise_sortDescBy _ _)⟩
  · intro enabled data regions high_only nl el ts te
    by_cases h : enabled = false
    · simp [section_macro_forexfactory, h]
    · simp only [section_macro_forexfactory, if_neg h]
      exact ⟨pairwise_sortAscBy _ _, pairwise_sortAscBy _ _⟩

/-- Claim C3: `within_day` is the half-open interval test, so an item at
`todayStart` classifies as today, one at `tomorrowStart` classifies as
tomorrow (and not today), and no instant satisfies both day tests. -/
theorem within_day_boundary_classification (t0 t1 t2 dt : Int) :
    (t0 < t1 → within_day t0 t0 t1 = true ∧ classify_day t0 t0 t1 t2 = some true) ∧
    (within_day t1 t0 t1 = false) ∧
    (t1 < t2 → within_day t1 t1 t2 = true ∧ classify_day t1 t0 t1 t2 = some false) ∧
    (within_day dt t0 t1 = true ↔ t0 ≤ dt ∧ dt < t1) ∧
    ¬(within_day dt t0 t1 = true ∧ within_day dt t1 t2 = true) := by
  have hiff : ∀ a b c : Int, within_day a b c = true ↔ b ≤ a ∧ a < c := by
    intro a b c
    simp [within_day]
  refine ⟨?_, ?_, ?_, hiff dt t0 t1, ?_⟩
  · intro h
    have h1 : within_day t0 t0 t1 = true := (hiff _ _ _).mpr ⟨le_refl _, h⟩
    exact ⟨h1, by simp [classify_day, h1]⟩
  · simp [within_day]
  · intro h
    have h1 : within_day t1 t1 t2 = true := (hiff _ _ _).mpr ⟨le_refl _, h⟩
    have h0 : within_day t1 t0 t1 = false := by simp [within_day]
    exact ⟨h1, by simp [classify_day, h0, h1]⟩
  · rintro ⟨h1, h2⟩
    rw [hiff] at h1 h2
    omega

/-- Witness for C3 at concrete boundaries (midnight-spaced epoch values). -/
theorem within_day_boundary_classification_w :
    within_day 0 0 86400 = true ∧ classify_day 0 0 86400 172800 = some true ∧
    within_day 86400 86400 172800 = true ∧ classify_day 86400 0 86400 172800 = some false :=
  ⟨((within_day_boundary_classification 0 86400 172800 100).1 (by decide)).1,
    ((within_day_boundary_classification 0 86400 172800 100).1 (by decide)).2,
    ((within_day_boundary_classification 0 86400 172800 100).2.2.1 (by decide)).1,
    ((within_day_boundary_classification 0 86400 172800 100).2.2.1 (by decide)).2⟩

/-- Outcome of one HTTP request as seen by the calling Python code: either the
library raised an exception, or a response with a status code and a body
arrived. -/
inductive FetchOutcome (α : Type) where
  | exn : FetchOutcome α
  | resp (status : Nat) (body : α) : FetchOutcome α
deriving DecidableEq

/-- Embedding of `fetch_json` (digest.py lines 63-70).  The response body is
the result of `r.json()`: `none` when parsing raised (caught by the
surrounding `except`, yielding `None`).  Non-200 statuses and exceptions also
yield `none`; the function is total, so no exception propagates. -/
def fetch_json {α : Type} (o : FetchOutcome (Option α)) : Option α :=
  match o with
  | .exn => none
  | .resp s parsed => if s = 200 then parsed else none

/-- Raw feed entry as produced by the feed parser (digest.py lines 52-61,
76-81).  Each timestamp field is `none` when absent or falsy, `some none`
when present but unparseable (`dtp.parse` raised and the loop continued), and
`some (some t)` when it parses to instant `t`. -/
structure RawEntry where
  published : Option (Option Int)
  updated : Option (Option Int)
  created : Option (Option Int)
  title : Option Str
  link : Option Str
  summary : Option Str
deriving DecidableEq

/-- Embedding of `normalize_entry_time` (digest.py lines 52-61): first of
published/updated/created that parses wins, otherwise the current time. -/
def normalize_entry_time (nowT : Int) (e : RawEntry) : Int :=
  match e.published with
  | some (some t) => t
  | _ =>
    match e.updated with
    | some (some t) => t
    | _ =>
      match e.created with
      | some (some t) => t
      | _ => nowT

/-- Embedding of `fetch_rss_items` (digest.py lines 72-84).  The outcome is
`Except.error` when anything inside the `try` raised (caught, returning `[]`)
and `Except.ok entries` otherwise; at most `limit` entries are normalized. -/
def fetch_rss_items (nowT : Int) (o : Except Unit (List RawEntry)) (limit : Nat) :
    List FeedItem :=
  match o with
  | .error _ => []
  | .ok entries =>
    (entries.take limit).map (fun e =>
      { title := trimStr (e.title.getD [])
        link := trimStr (e.link.getD [])
        time := normalize_entry_time nowT e
        summary := trimStr (e.summary.getD [])
        source := [] })

/-- Claim C6: the fetchers are total over all request outcomes (no exception
propagates), the feed fetcher returns `[]` on failure, and the JSON fetcher
returns the parsed body only on HTTP 200, and nothing otherwise. -/
theorem fetchers_fail_soft (α : Type) (nowT : Int) (limit : Nat) (s : Nat) (b : Option α) :
    fetch_rss_items nowT (Except.error ()) limit = [] ∧
    fetch_json (FetchOutcome.exn : FetchOutcome (Option α)) = none ∧
    (s ≠ 200 → fetch_json (FetchOutcome.resp s b) = none) ∧
    fetch_json (FetchOutcome.resp 200 b) = b := by
  refine ⟨rfl, rfl, ?_, rfl⟩
  intro hs
  simp [fetch_json, hs]

/-- Witness for C6 at a concrete non-200 status. -/
theorem fetchers_fail_soft_w :
    fetch_rss_items 0 (Except.error ()) 40 = [] ∧
    fetch_json (FetchOutcome.resp 404 (some 7)) = (none : Option Nat) :=
  ⟨(fetchers_fail_soft Nat 0 40 404 (some 7)).1,
    (fetchers_fail_soft Nat 0 40 404 (some 7)).2.2.1 (by decide)⟩

/-- Error message raised by digest.py's `tg_send` (line 46): the Telegram
status code and response body are interpolated into the message. -/
def tg_error_msg (status : Nat) (body : Str) : Str :=
  ("Telegram send error ".toList) ++ (Nat.toDigits 10 status) ++ (": ".toList) ++ body

/-- Embedding of digest.py's `tg_send` (lines 36-47), restricted to the case
where the endpoint produced a response: status at least 400 raises a
`RuntimeError` carrying status and body; otherwise the body is returned.  The
single request is consumed by the single `response` argument — the function
has no retry path. -/
def tg_send (status : Nat) (body : Str) : Except Str Str :=
  if 400 ≤ status then Except.error (tg_error_msg status body) else Except.ok body

/-- Embedding of one chunk send inside notifier.py's `tg_send` (lines 32-40):
the `requests.get` sits in a `try/except Exception: pass`, and the response
status is never inspected, so every outcome returns normally. -/
def notifier_send_chunk (o : FetchOutcome Str) : Except Str Unit :=
  match o with
  | .exn => Except.ok ()
  | .resp _ _ => Except.ok ()

/-- Counterexample to claim C7 as stated: notifier.py's delivery client
returns normally on a 500 response instead of raising. -/
theorem notifier_swallows_error_cex :
    notifier_send_chunk (FetchOutcome.resp 500 ("Internal Server Error".toList)) =
      Except.ok () := rfl

/-- Claim C7 (amended): digest.py's `tg_send` raises exactly on HTTP status at
least 400, with an error containing the status and the response body, returns
normally otherwise and never retries; notifier.py's `tg_send`, by contrast,
never raises — it ignores response statuses and swallows exceptions. -/
theorem tg_send_status_check (status : Nat) (body : Str) (o : FetchOutcome Str) :
    (400 ≤ status →
      tg_send status body = Except.error (tg_error_msg status body) ∧
      body <:+ tg_error_msg status body ∧
      (Nat.toDigits 10 status) <:+: tg_error_msg status body) ∧
    (status < 400 → tg_send status body = Except.ok body) ∧
    notifier_send_chunk o = Except.ok () := by
  refine ⟨?_, ?_, ?_⟩
  · intro h
    refine ⟨by simp [tg_send, h], ?_, ?_⟩
    · exact ⟨("Telegram send error ".toList) ++ (Nat.toDigits 10 status) ++ (": ".toList), by
        simp [tg_error_msg, List.append_assoc]⟩
    · exact ⟨("Telegram send error ".toList), (": ".toList) ++ body, by
        simp [tg_error_msg, List.append_assoc]⟩
  · intro h
    simp [tg_send]
    omega
  · cases o <;> rfl

/-- Witness for C7 at a concrete failing status and a concrete response. -/
theorem tg_send_status_check_w :
    tg_send 500 ("oops".toList) = Except.error (tg_error_msg 500 ("oops".toList)) ∧
    notifier_send_chunk (FetchOutcome.resp 502 ("x".toList)) = Except.ok () :=
  ⟨((tg_send_status_check 500 ("oops".toList) FetchOutcome.exn).1 (by decide)).1,
    (tg_send_status_check 500 ("oops".toList) (FetchOutcome.resp 502 ("x".toList))).2.2⟩

/-- Environment secrets of notifier.py (lines 7-8): `TG_BOT_TOKEN` and
`TG_CHAT_ID`, each possibly absent. -/
structure NotifierEnv where
  botToken : Option Str
  chatId : Option Str
deriving DecidableEq

/-- Python falsiness of an optional string: `None` and `""` are falsy, which
is what `if not BOT_TOKEN or not CHAT_ID` tests. -/
def falsy_opt (o : Option Str) : Bool :=
  match o with
  | none => true
  | some s => s.isEmpty

/-- Observable steps of one notifier run. -/
inductive RunEvent where
  | networkFetch : RunEvent
  | printHint : RunEvent
  | sendChunk : RunEvent
deriving DecidableEq

/-- Fuel-indexed body of the `range(0, len(text), 3500)` slicing loop of
notifier.py's `tg_send` (lines 31-36). -/
def chunks3500Go : Nat → Str → List Str
  | 0, _ => []
  | _, [] => []
  | fuel + 1, s => s.take 3500 :: chunks3500Go fuel (s.drop 3500)

/-- The 3500-character message slices notifier.py sends. -/
def chunks3500 (s : Str) : List Str :=
  chunks3500Go (s.length + 1) s

/-- Embedding of notifier.py's `tg_send` (lines 26-40) as its observable
events: with a missing or empty token/chat id it prints the setup hint and
returns; otherwise it issues one send per 3500-character slice, each wrapped
in `try/except: pass` (see `notifier_send_chunk`), so it never raises. -/
def tg_send_notifier (env : NotifierEnv) (text : Str) : List RunEvent :=
  if falsy_opt env.botToken || falsy_opt env.chatId then [RunEvent.printHint]
  else (chunks3500 text).map (fun _ => RunEvent.sendChunk)

/-- Network requests of `build_message` (notifier.py lines 191-270), which
runs before `tg_send` is called (`tg_send(build_message())`, line 276) and
performs its HTTP GETs unconditionally — the first being the BTCUSDT 24h
ticker request — regardless of whether the secrets are set.  The exact
request count varies with responses, so it is abstracted as `extra + 1`
fetch events: always at least one. -/
def build_message_events (extra : Nat) : List RunEvent :=
  List.replicate (extra + 1) RunEvent.networkFetch

/-- Embedding of one `python notifier.py once` run: `build_message()` first
(network fetches), then `tg_send`.  Every helper swallows its exceptions
(`get_json`, `tg_send`, the per-symbol loops), so no exception reaches the
top level and the process exit code — the second component — is 0. -/
def notifier_main (env : NotifierEnv) (extra : Nat) (text : Str) : List RunEvent × Nat :=
  (build_message_events extra ++ tg_send_notifier env text, 0)

/-- Counterexample to claim C8 as stated: with both secrets absent the run
still performs network fetches first, merely prints the hint, and exits 0
rather than failing with a non-zero code before network activity. -/
theorem missing_secrets_exit_zero_cex :
    (notifier_main ⟨none, none⟩ 0 ("digest".toList)).2 = 0 ∧
    (notifier_main ⟨none, none⟩ 0 ("digest".toList)).1 =
      [RunEvent.networkFetch, RunEvent.printHint] := by
  constructor
  · rfl
  · rfl

/-- Claim C8 (amended): when the bot token or chat id is absent or empty, the
notifier prints the setup hint and skips sending, but the run still performs
`build_message`'s network requests beforehand and the process exits 0, not
non-zero. -/
theorem missing_secrets_behavior (env : NotifierEnv) (extra : Nat) (text : Str)
    (h : (falsy_opt env.botToken || falsy_opt env.chatId) = true) :
    tg_send_notifier env text = [RunEvent.printHint] ∧
    (notifier_main env extra text).2 = 0 ∧
    (notifier_main env extra text).1 = build_message_events extra ++ [RunEvent.printHint] ∧
    RunEvent.networkFetch ∈ (notifier_main env extra text).1 := by
  have hsend : tg_send_notifier env text = [RunEvent.printHint] := by
    simp [tg_send_notifier, h]
  refine ⟨hsend, rfl, ?_, ?_⟩
  · simp [notifier_main, hsend]
  · simp only [notifier_main]
    apply List.mem_append_left
    simp [build_message_events]

/-- Witness for C8 at a concrete secretless environment. -/
theorem missing_secrets_behavior_w :
    tg_send_notifier ⟨none, some ("123".toList)⟩ ("hi".toList) = [RunEvent.printHint] ∧
    (notifier_main ⟨none, some ("123".toList)⟩ 2 ("hi".toList)).2 = 0 :=
  ⟨(missing_secrets_behavior ⟨none, some ("123".toList)⟩ 2 ("hi".toList) (by decide)).1,
    (missing_secrets_behavior ⟨none, some ("123".toList)⟩ 2 ("hi".toList) (by decide)).2.1⟩

/-- Embedding of `get_binance_funding` (digest.py lines 220-231).  The body is
the parse/coercion result of `r.json()` and the `float`/`int` conversions:
`none` when any of those raised (caught, returning `(None, None)`), otherwise
the list of (fundingRate, fundingTime-in-ms) records with the `.get`
defaults applied.  A 200 response with a non-empty list yields the first
record, its time floor-divided by 1000 (Python `//`). -/
def get_binance_funding (o : FetchOutcome (Option (List (ℚ × Int)))) : Option (ℚ × Int) :=
  match o with
  | .exn => none
  | .resp s parsed =>
    if s = 200 then
      match parsed with
      | some (rec :: _) => some (rec.1, Int.fdiv rec.2 1000)
      | _ => none
    else none

/-- Funding rate in basis points (digest.py line 330): `abs(fr) * 10000.0`. -/
def funding_bps (fr : ℚ) : ℚ := |fr| * 10000

/-- One flagged funding line of `section_derivatives` (digest.py lines
327-340): per watchlist asset, when a funding observation is available and
its basis-point magnitude meets or exceeds the threshold, the observation
becomes a line item carrying the funding timestamp. -/
structure DerivLine where
  time : Int
  asset : Str
  rate : ℚ
deriving DecidableEq

/-- The flag decision of the funding branch of `section_derivatives`:
`none` when no observation is available or the threshold is not met. -/
def funding_item (asset : Str) (fetched : Option (ℚ × Int)) (thrBps : ℚ) :
    Option DerivLine :=
  match fetched with
  | none => none
  | some (fr, ts) =>
    if thrBps ≤ funding_bps fr then some ⟨ts, asset, fr⟩ else none

/-- Claim C9: an available funding observation is flagged exactly when its
absolute rate times 10000 (basis points) meets or exceeds the threshold; in
particular 0.0015 is flagged at a 10 bps threshold and 0.0005 is not. -/
theorem funding_extreme_flag (asset : Str) (thr fr : ℚ) (ts : Int) :
    funding_item asset none thr = none ∧
    ((funding_item asset (some (fr, ts)) thr).isSome = true ↔ thr ≤ |fr| * 10000) ∧
    get_binance_funding FetchOutcome.exn = none ∧
    (funding_item asset (some ((0.0015 : ℚ), ts)) 10).isSome = true ∧
    funding_item asset (some ((0.0005 : ℚ), ts)) 10 = none := by
  have habs : ∀ q : ℚ, 0 < q → |q| = q := fun q hq => abs_of_pos hq
  refine ⟨rfl, ?_, rfl, ?_, ?_⟩
  · by_cases h : thr ≤ funding_bps fr
    · simp [funding_item, h, funding_bps] at *
    · simp only [funding_item, if_neg h]
      simp only [Option.isSome_none, Bool.false_eq_true, false_iff]
      rw [funding_bps] at h
      exact h
  · have h15 : |(0.0015 : ℚ)| = (0.0015 : ℚ) := habs _ (by norm_num)
    have : (10 : ℚ) ≤ funding_bps (0.0015 : ℚ) := by
      rw [funding_bps, h15]
      norm_num
    simp [funding_item, this]
  · have h05 : |(0.0005 : ℚ)| = (0.0005 : ℚ) := habs _ (by norm_num)
    have : ¬ ((10 : ℚ) ≤ funding_bps (0.0005 : ℚ)) := by
      rw [funding_bps, h05]
      norm_num
    simp [funding_item, this]
